import Mathlib

/-!
Shallow embedding of the poll-room core of the repository
(RoomService together with the mongoose schemas of Room, Poll and Answer).

Conventions of the embedding:
* the document store is a list of rooms; findOne on a filter is the first
  list element matching the filter, findOneAndUpdate rewrites that first
  match in place;
* timestamps are naturals (milliseconds since epoch);
* answerIndex and correctOptionIndex are integers, since the schema gives
  correctOptionIndex the sentinel default -1;
* the RoomSchema has no endedAt path, yet getPollAnalysis reads
  room.endedAt; the model therefore carries endedAt as an Option that no
  write of this scope ever sets, mirroring the always-undefined read;
* strings are lowercased/uppercased character-wise, matching the
  JavaScript toLowerCase/toUpperCase on the ASCII data involved;
* Mongo object ids are opaque and touched by no claim, so they are left
  out of the model.
-/

namespace PollRoom

/-- Answer subdocument, from AnswerSchema. -/
structure PollAnswer where
  userId : String
  answerIndex : Int
  answeredAt : Nat
deriving Repr, DecidableEq

/-- Poll subdocument, from PollSchema (the string _id is opaque and omitted). -/
structure Poll where
  question : String
  options : List String
  correctOptionIndex : Int
  timer : Nat
  createdAt : Nat
  answers : List PollAnswer
deriving Repr, DecidableEq

/-- Room document, from RoomSchema. The schema declares no endedAt path;
the field is carried here as an Option so that the read of room.endedAt in
getPollAnalysis can be expressed, and nothing in this scope ever sets it. -/
structure Room where
  roomCode : String
  name : String
  teacherId : String
  createdAt : Nat
  status : String
  polls : List Poll
  endedAt : Option Nat
deriving Repr, DecidableEq

/-- User document, restricted to the two paths the analysis projection reads. -/
structure User where
  firebaseUID : String
  firstName : String
deriving Repr, DecidableEq

/-- Character-wise lowercase, the behaviour of toLowerCase on the ASCII
status strings involved. -/
def lowerStr (s : String) : String := String.mk (s.data.map Char.toLower)

/-- Room.findOne on a roomCode filter: first stored room with that code. -/
def findRoom (store : List Room) (code : String) : Option Room :=
  store.find? (fun r => r.roomCode == code)

/-- Base-36 digit alphabet used by Number.toString(36). -/
def base36Digits : List Char := "0123456789abcdefghijklmnopqrstuvwxyz".data

/-- Printed form of the random draw: Math.random().toString(36) yields "0"
when the fractional digit list is empty and "0." followed by the digits
otherwise. -/
def randFracChars (ds : List Char) : List Char :=
  if ds.isEmpty then ['0'] else '0' :: '.' :: ds

/-- Room code generation: Math.random().toString(36).substring(2, 8).toUpperCase(),
with ds the base-36 fractional digits the draw prints. -/
def genRoomCode (ds : List Char) : String :=
  String.mk ((((randFracChars ds).drop 2).take 6).map Char.toUpper)

/-- RoomService.createRoom: the room persisted and returned for a draw whose
printed fractional digits are ds, at creation instant now. -/
def createRoom (name teacherId : String) (now : Nat) (ds : List Char) : Room :=
  { roomCode := genRoomCode ds
    name := name
    teacherId := teacherId
    createdAt := now
    status := "active"
    polls := []
    endedAt := none }

/-- RoomService.isRoomValid: room exists and its status lowercased is active. -/
def isRoomValid (store : List Room) (code : String) : Bool :=
  match findRoom store code with
  | none => false
  | some r => lowerStr r.status == "active"

/-- RoomService.isRoomEnded: room exists and its status is exactly ended. -/
def isRoomEnded (store : List Room) (code : String) : Bool :=
  match findRoom store code with
  | none => false
  | some r => r.status == "ended"

/-- RoomService.canJoinRoom: room exists and its status is exactly active. -/
def canJoinRoom (store : List Room) (code : String) : Bool :=
  match findRoom store code with
  | none => false
  | some r => r.status == "active"

/-- Effect of findOneAndUpdate on the store for endRoom: the first room
matching the code gets status ended, everything else is untouched. -/
def endRoomUpdate : List Room → String → List Room
  | [], _ => []
  | r :: rest, code =>
      if r.roomCode == code then { r with status := "ended" } :: rest
      else r :: endRoomUpdate rest code

/-- RoomService.endRoom: the boolean it returns (a room matched) paired with
the store after the update. -/
def endRoom (store : List Room) (code : String) : Bool × List Room :=
  ((findRoom store code).isSome, endRoomUpdate store code)

/-- Accumulator record held in participantsMap during getPollAnalysis. -/
structure Accum where
  userId : String
  correct : Nat
  wrong : Nat
  score : Int
  timeTaken : Nat
deriving Repr, DecidableEq

/-- Fresh accumulator inserted on first sight of a student. -/
def initAccum (uid : String) : Accum :=
  { userId := uid, correct := 0, wrong := 0, score := 0, timeTaken := 0 }

/-- Per-answer mutation of one accumulator: correct gains 1 and 5 points,
wrong gains 1 and loses 2 points. -/
def updAccum (a : Accum) (isCorrect : Bool) : Accum :=
  if isCorrect then { a with correct := a.correct + 1, score := a.score + 5 }
  else { a with wrong := a.wrong + 1, score := a.score - 2 }

/-- One answer folded into the insertion-ordered participantsMap: the entry
of that student is updated in place, a fresh entry being appended first when
the student is unseen. -/
def tallyInto : List Accum → String → Bool → List Accum
  | [], uid, isC => [updAccum (initAccum uid) isC]
  | a :: m, uid, isC =>
      if a.userId == uid then updAccum a isC :: m
      else a :: tallyInto m uid isC

/-- All answers of one poll folded into the map, in stored order. -/
def tallyPoll (m : List Accum) (p : Poll) : List Accum :=
  p.answers.foldl
    (fun acc ans => tallyInto acc ans.userId (ans.answerIndex == p.correctOptionIndex)) m

/-- The participantsMap built by the two nested loops of getPollAnalysis. -/
def tallyRoom (polls : List Poll) : List Accum :=
  polls.foldl tallyPoll []

/-- Leaderboard record of the analysis output. -/
structure ParticipantOut where
  name : String
  score : Int
  correct : Nat
  wrong : Nat
  timeTaken : String
deriving Repr, DecidableEq

/-- Projection of an accumulator to an output record, merging the display
name fetched from the User collection, Anonymous as fallback; timeTaken is
formatted from its (never populated) millisecond count. -/
def mkParticipant (users : List User) (p : Accum) : ParticipantOut :=
  { name := match users.find? (fun u => u.firebaseUID == p.userId) with
            | some u => u.firstName
            | none => "Anonymous"
    score := p.score
    correct := p.correct
    wrong := p.wrong
    timeTaken := if 0 < p.timeTaken then toString ((p.timeTaken + 59) / 60) ++ " min" else "N/A" }

/-- Comparator of the descending sort on score, the relation induced by the
comparator (a, b) maps-to b.score - a.score. -/
def scoreDesc (a b : ParticipantOut) : Bool := decide (b.score ≤ a.score)

/-- Question-level stat of the analysis output. -/
structure QuestionStat where
  text : String
  correctCount : Nat
deriving Repr, DecidableEq

/-- Per-poll stat: the count of answers hitting correctOptionIndex. -/
def questionStat (p : Poll) : QuestionStat :=
  { text := p.question
    correctCount := (p.answers.filter (fun a => a.answerIndex == p.correctOptionIndex)).length }

/-- Analysis report (the opaque Mongo id is omitted). -/
structure AnalysisResult where
  name : String
  createdAt : Nat
  duration : String
  participants : List ParticipantOut
  questions : List QuestionStat
deriving Repr, DecidableEq

/-- Report built by getPollAnalysis once the room is found: tallied map
projected to records, stably sorted by score descending, plus per-question
stats; duration falls back to N/A whenever endedAt is absent. -/
def analyzeRoom (users : List User) (room : Room) : AnalysisResult :=
  { name := room.name
    createdAt := room.createdAt
    duration := match room.endedAt with
      | some e => toString (((e - room.createdAt) + 59999) / 60000) ++ " mins"
      | none => "N/A"
    participants := ((tallyRoom room.polls).map (mkParticipant users)).mergeSort scoreDesc
    questions := room.polls.map questionStat }

/-- RoomService.getPollAnalysis: Room-not-found failure when the code does
not resolve, the full report otherwise. -/
def getPollAnalysis (store : List Room) (users : List User) (code : String) :
    Except String AnalysisResult :=
  match findRoom store code with
  | none => Except.error "Room not found"
  | some room => Except.ok (analyzeRoom users room)

/-- Specification-side count: answers of uid in poll p that hit the correct
option, duplicates included. -/
def pollCorrect (p : Poll) (uid : String) : Nat :=
  (p.answers.filter (fun a => a.userId == uid && a.answerIndex == p.correctOptionIndex)).length

/-- Specification-side count: answers of uid in poll p that miss the correct
option, duplicates included. -/
def pollWrong (p : Poll) (uid : String) : Nat :=
  (p.answers.filter (fun a => a.userId == uid && !(a.answerIndex == p.correctOptionIndex))).length

/-- Specification-side count: all answers of uid in poll p. -/
def pollTotal (p : Poll) (uid : String) : Nat :=
  (p.answers.filter (fun a => a.userId == uid)).length

/-- Specification-side count of correct answers of uid across all polls. -/
def roomCorrect (polls : List Poll) (uid : String) : Nat :=
  (polls.map (fun p => pollCorrect p uid)).sum

/-- Specification-side count of wrong answers of uid across all polls. -/
def roomWrong (polls : List Poll) (uid : String) : Nat :=
  (polls.map (fun p => pollWrong p uid)).sum

/-- Specification-side count of all answers of uid across all polls. -/
def roomTotal (polls : List Poll) (uid : String) : Nat :=
  (polls.map (fun p => pollTotal p uid)).sum

/-- Entry of the participantsMap under a key, the fresh accumulator when the
key is absent. -/
def lookupAcc (m : List Accum) (uid : String) : Accum :=
  (m.find? (fun a => a.userId == uid)).getD (initAccum uid)

/-- Accumulator advanced by c correct and w wrong answers at once. -/
def bumpAcc (a : Accum) (c w : Nat) : Accum :=
  { a with correct := a.correct + c, wrong := a.wrong + w,
           score := a.score + 5 * (c : Int) - 2 * (w : Int) }

/-- Key sequence of the participantsMap, in insertion order. -/
def uids (m : List Accum) : List String := m.map (fun a => a.userId)

/-- Fixture: poll A of the worked scenario of the specification. -/
def examplePollA : Poll :=
  { question := "A", options := ["x", "y"], correctOptionIndex := 1, timer := 30,
    createdAt := 0, answers := [⟨"u1", 1, 0⟩, ⟨"u2", 0, 0⟩] }

/-- Fixture: poll B of the worked scenario of the specification. -/
def examplePollB : Poll :=
  { question := "B", options := ["x", "y"], correctOptionIndex := 0, timer := 30,
    createdAt := 0, answers := [⟨"u1", 0, 0⟩, ⟨"u2", 0, 0⟩] }

/-- Fixture: the two-poll room of the worked scenario of the specification. -/
def exampleRoom : Room :=
  { roomCode := "ABC123", name := "R", teacherId := "t", createdAt := 0,
    status := "active", polls := [examplePollA, examplePollB], endedAt := none }

/-- Fixture: a stored room with no polls. -/
def emptyRoom : Room :=
  { roomCode := "EMPTY1", name := "E", teacherId := "t", createdAt := 0,
    status := "active", polls := [], endedAt := none }

/-- Fixture: a poll whose correct option was never configured. -/
def sentinelPoll : Poll :=
  { question := "S", options := ["x", "y"], correctOptionIndex := -1, timer := 30,
    createdAt := 0, answers := [⟨"u1", 0, 0⟩] }

/-- Fixture: a room holding only the sentinel poll. -/
def sentinelRoom : Room :=
  { roomCode := "SENT01", name := "S", teacherId := "t", createdAt := 0,
    status := "active", polls := [sentinelPoll], endedAt := none }

/-- Fixture: an active room used to exercise endRoom. -/
def endRoomCexRoom : Room :=
  { roomCode := "R1", name := "n", teacherId := "t", createdAt := 5,
    status := "active", polls := [], endedAt := none }

@[simp]
lemma updAccum_userId (a : Accum) (b : Bool) : (updAccum a b).userId = a.userId := by
  cases b <;> simp [updAccum]

@[simp]
lemma initAccum_userId (u : String) : (initAccum u).userId = u := rfl

lemma bumpAcc_zero (a : Accum) : bumpAcc a 0 0 = a := by
  simp [bumpAcc]

lemma bumpAcc_updAccum (a : Accum) (b : Bool) (c w : Nat) :
    bumpAcc (updAccum a b) c w =
      if b then bumpAcc a (c + 1) w else bumpAcc a c (w + 1) := by
  cases b <;>
    · simp only [updAccum, bumpAcc, Bool.false_eq_true, if_false, if_true, Accum.mk.injEq]
      and_intros <;> first | trivial | omega

lemma bumpAcc_bumpAcc (a : Accum) (c₁ w₁ c₂ w₂ : Nat) :
    bumpAcc (bumpAcc a c₁ w₁) c₂ w₂ = bumpAcc a (c₁ + c₂) (w₁ + w₂) := by
  simp only [bumpAcc, Accum.mk.injEq]
  and_intros <;> first | trivial | omega

lemma lookupAcc_cons (a : Accum) (m : List Accum) (uid : String) :
    lookupAcc (a :: m) uid = if a.userId = uid then a else lookupAcc m uid := by
  by_cases h : a.userId = uid
  · simp [lookupAcc, List.find?_cons, h]
  · simp [lookupAcc, List.find?_cons, h]

lemma tallyInto_cons_hit (a : Accum) (m : List Accum) (u : String) (b : Bool)
    (h : a.userId = u) : tallyInto (a :: m) u b = updAccum a b :: m := by
  simp [tallyInto, h]

lemma tallyInto_cons_miss (a : Accum) (m : List Accum) (u : String) (b : Bool)
    (h : ¬ a.userId = u) : tallyInto (a :: m) u b = a :: tallyInto m u b := by
  simp [tallyInto, h]

lemma lookupAcc_tallyInto (m : List Accum) (u : String) (b : Bool) (uid : String) :
    lookupAcc (tallyInto m u b) uid =
      if u = uid then updAccum (lookupAcc m uid) b else lookupAcc m uid := by
  induction m with
  | nil =>
      by_cases h : u = uid
      · subst h
        simp [tallyInto, lookupAcc_cons, lookupAcc]
      · simp [tallyInto, lookupAcc_cons, lookupAcc, h]
  | cons a m ih =>
      by_cases hau : a.userId = u
      · rw [tallyInto_cons_hit a m u b hau]
        by_cases huid : u = uid
        · subst huid
          simp [lookupAcc_cons, hau]
        · have hne : ¬ a.userId = uid := by rw [hau]; exact huid
          simp [lookupAcc_cons, hne, huid]
      · rw [tallyInto_cons_miss a m u b hau]
        by_cases haid : a.userId = uid
        · have hne : ¬ u = uid := fun h => hau (by rw [h, haid])
          simp [lookupAcc_cons, haid, hne]
        · simp [lookupAcc_cons, haid, ih]

lemma lookupAcc_foldAns (ci : Int) (l : List PollAnswer) (m : List Accum) (uid : String) :
    lookupAcc
      (l.foldl (fun acc ans => tallyInto acc ans.userId (ans.answerIndex == ci)) m) uid
    = bumpAcc (lookupAcc m uid)
        ((l.filter (fun a => a.userId == uid && a.answerIndex == ci)).length)
        ((l.filter (fun a => a.userId == uid && !(a.answerIndex == ci))).length) := by
  induction l generalizing m with
  | nil => simp [bumpAcc_zero]
  | cons a l ih =>
      simp only [List.foldl_cons, List.filter_cons]
      rw [ih, lookupAcc_tallyInto]
      by_cases hu : a.userId = uid
      · subst hu
        by_cases hc : a.answerIndex = ci
        · simp [hc, bumpAcc_updAccum, Nat.add_comm]
        · simp [hc, bumpAcc_updAccum, Nat.add_comm]
      · simp [hu]

lemma lookupAcc_tallyPoll (m : List Accum) (p : Poll) (uid : String) :
    lookupAcc (tallyPoll m p) uid
      = bumpAcc (lookupAcc m uid) (pollCorrect p uid) (pollWrong p uid) := by
  simpa [tallyPoll, pollCorrect, pollWrong] using
    lookupAcc_foldAns p.correctOptionIndex p.answers m uid

lemma roomCorrect_cons (p : Poll) (polls : List Poll) (uid : String) :
    roomCorrect (p :: polls) uid = pollCorrect p uid + roomCorrect polls uid := by
  simp [roomCorrect]

lemma roomWrong_cons (p : Poll) (polls : List Poll) (uid : String) :
    roomWrong (p :: polls) uid = pollWrong p uid + roomWrong polls uid := by
  simp [roomWrong]

lemma lookupAcc_foldPolls (polls : List Poll) (m : List Accum) (uid : String) :
    lookupAcc (polls.foldl tallyPoll m) uid
      = bumpAcc (lookupAcc m uid) (roomCorrect polls uid) (roomWrong polls uid) := by
  induction polls generalizing m with
  | nil => simp [roomCorrect, roomWrong, bumpAcc_zero]
  | cons p polls ih =>
      simp only [List.foldl_cons]
      rw [ih, lookupAcc_tallyPoll, bumpAcc_bumpAcc, roomCorrect_cons, roomWrong_cons]

lemma lookupAcc_nil (uid : String) : lookupAcc [] uid = initAccum uid := rfl

/-- Closed form of the participantsMap entry of any student. -/
lemma lookupAcc_tallyRoom (polls : List Poll) (uid : String) :
    lookupAcc (tallyRoom polls) uid
      = { userId := uid
          correct := roomCorrect polls uid
          wrong := roomWrong polls uid
          score := 5 * (roomCorrect polls uid : Int) - 2 * (roomWrong polls uid : Int)
          timeTaken := 0 } := by
  rw [tallyRoom, lookupAcc_foldPolls, lookupAcc_nil]
  simp [bumpAcc, initAccum]

lemma uids_tallyInto (m : List Accum) (u : String) (b : Bool) :
    uids (tallyInto m u b) = if u ∈ uids m then uids m else uids m ++ [u] := by
  induction m with
  | nil => simp [uids, tallyInto]
  | cons a m ih =>
      by_cases hau : a.userId = u
      · rw [tallyInto_cons_hit a m u b hau]
        simp [uids, hau]
      · rw [tallyInto_cons_miss a m u b hau]
        have : ¬ u = a.userId := fun h => hau h.symm
        simp only [uids, List.map_cons, List.mem_cons, this, false_or] at ih ⊢
        by_cases hm : u ∈ m.map (fun a => a.userId) <;> simp [hm, ih]

lemma mem_uids_tallyInto (v : String) (m : List Accum) (u : String) (b : Bool) :
    v ∈ uids (tallyInto m u b) ↔ v ∈ uids m ∨ v = u := by
  rw [uids_tallyInto]
  by_cases hm : u ∈ uids m
  · simp only [hm, if_true]
    constructor
    · exact Or.inl
    · rintro (h | rfl) <;> [exact h; exact hm]
  · simp [hm]

lemma nodup_uids_tallyInto (m : List Accum) (u : String) (b : Bool)
    (h : (uids m).Nodup) : (uids (tallyInto m u b)).Nodup := by
  rw [uids_tallyInto]
  by_cases hm : u ∈ uids m
  · simpa [hm]
  · simp [hm, List.nodup_append, h]

lemma uids_foldAns (ci : Int) (l : List PollAnswer) (m : List Accum) (v : String) :
    v ∈ uids (l.foldl (fun acc ans => tallyInto acc ans.userId (ans.answerIndex == ci)) m)
      ↔ v ∈ uids m ∨ ∃ a ∈ l, a.userId = v := by
  induction l generalizing m with
  | nil => simp
  | cons a l ih =>
      simp only [List.foldl_cons]
      rw [ih, mem_uids_tallyInto]
      simp only [List.exists_mem_cons_iff]
      constructor
      · rintro ((h | h) | h)
        · exact Or.inl h
        · exact Or.inr (Or.inl h.symm)
        · exact Or.inr (Or.inr h)
      · rintro (h | h | h)
        · exact Or.inl (Or.inl h)
        · exact Or.inl (Or.inr h.symm)
        · exact Or.inr h

lemma nodup_uids_foldAns (ci : Int) (l : List PollAnswer) (m : List Accum)
    (h : (uids m).Nodup) :
    (uids (l.foldl (fun acc ans => tallyInto acc ans.userId (ans.answerIndex == ci)) m)).Nodup := by
  induction l generalizing m with
  | nil => exact h
  | cons a l ih =>
      simp only [List.foldl_cons]
      exact ih _ (nodup_uids_tallyInto _ _ _ h)

lemma mem_uids_tallyPoll (p : Poll) (m : List Accum) (v : String) :
    v ∈ uids (tallyPoll m p) ↔ v ∈ uids m ∨ ∃ a ∈ p.answers, a.userId = v := by
  simpa [tallyPoll] using uids_foldAns p.correctOptionIndex p.answers m v

lemma nodup_uids_tallyPoll (p : Poll) (m : List Accum)
    (h : (uids m).Nodup) : (uids (tallyPoll m p)).Nodup := by
  simpa [tallyPoll] using nodup_uids_foldAns p.correctOptionIndex p.answers m h

lemma mem_uids_foldPolls (polls : List Poll) (m : List Accum) (v : String) :
    v ∈ uids (polls.foldl tallyPoll m)
      ↔ v ∈ uids m ∨ ∃ p ∈ polls, ∃ a ∈ p.answers, a.userId = v := by
  induction polls generalizing m with
  | nil => simp
  | cons p polls ih =>
      simp only [List.foldl_cons]
      rw [ih, mem_uids_tallyPoll]
      simp only [List.exists_mem_cons_iff]
      exact or_assoc

lemma nodup_uids_foldPolls (polls : List Poll) (m : List Accum)
    (h : (uids m).Nodup) : (uids (polls.foldl tallyPoll m)).Nodup := by
  induction polls generalizing m with
  | nil => exact h
  | cons p polls ih =>
      simp only [List.foldl_cons]
      exact ih _ (nodup_uids_tallyPoll p m h)

/-- Key list of the final participantsMap is duplicate free. -/
lemma nodup_uids_tallyRoom (polls : List Poll) : (uids (tallyRoom polls)).Nodup :=
  nodup_uids_foldPolls polls [] (by simp [uids])

/-- Keys of the final participantsMap are exactly the students occurring in
some stored answer. -/
lemma mem_uids_tallyRoom (polls : List Poll) (v : String) :
    v ∈ uids (tallyRoom polls) ↔ ∃ p ∈ polls, ∃ a ∈ p.answers, a.userId = v := by
  rw [tallyRoom, mem_uids_foldPolls]
  simp [uids]

lemma find?_eq_of_mem_nodup (m : List Accum) (a : Accum)
    (hnd : (uids m).Nodup) (ha : a ∈ m) :
    m.find? (fun x => x.userId == a.userId) = some a := by
  induction m with
  | nil => cases ha
  | cons x m ih =>
      have hpair : (∀ y ∈ m, ¬ y.userId = x.userId) ∧
          (List.map (fun a => a.userId) m).Nodup := by
        simpa [uids, List.nodup_cons] using hnd
      rcases List.mem_cons.mp ha with rfl | ha'
      · simp [List.find?_cons]
      · have hx : ¬ x.userId = a.userId := fun hEq => hpair.1 a ha' hEq.symm
        have hm : (uids m).Nodup := by simpa [uids] using hpair.2
        simp [List.find?_cons, hx, ih hm ha']

/-- Membership of the participantsMap pins an entry down to its closed form. -/
lemma mem_tallyRoom_eq (polls : List Poll) (a : Accum) (ha : a ∈ tallyRoom polls) :
    a = lookupAcc (tallyRoom polls) a.userId := by
  rw [lookupAcc, find?_eq_of_mem_nodup (tallyRoom polls) a (nodup_uids_tallyRoom polls) ha]
  rfl

lemma filter_length_split {α : Type} (l : List α) (q r : α → Bool) :
    (l.filter (fun x => q x && r x)).length + (l.filter (fun x => q x && !(r x))).length
      = (l.filter q).length := by
  induction l with
  | nil => rfl
  | cons x l ih =>
      by_cases hq : q x
      · by_cases hr : r x <;> simp [List.filter_cons, hq, hr] <;> omega
      · simp [List.filter_cons, hq, ih]

lemma pollCorrect_add_pollWrong (p : Poll) (uid : String) :
    pollCorrect p uid + pollWrong p uid = pollTotal p uid := by
  simpa [pollCorrect, pollWrong, pollTotal] using
    filter_length_split p.answers (fun a => a.userId == uid)
      (fun a => a.answerIndex == p.correctOptionIndex)

lemma roomCorrect_add_roomWrong (polls : List Poll) (uid : String) :
    roomCorrect polls uid + roomWrong polls uid = roomTotal polls uid := by
  induction polls with
  | nil => rfl
  | cons p polls ih =>
      simp only [roomCorrect, roomWrong, roomTotal, List.map_cons, List.sum_cons] at ih ⊢
      have := pollCorrect_add_pollWrong p uid
      omega

lemma scoreDesc_trans (a b c : ParticipantOut)
    (hab : scoreDesc a b = true) (hbc : scoreDesc b c = true) : scoreDesc a c = true := by
  simp only [scoreDesc, decide_eq_true_eq] at hab hbc ⊢
  omega

lemma scoreDesc_total (a b : ParticipantOut) : (scoreDesc a b || scoreDesc b a) = true := by
  simp only [scoreDesc, Bool.or_eq_true, decide_eq_true_eq]
  omega

lemma participants_def (users : List User) (room : Room) :
    (analyzeRoom users room).participants
      = ((tallyRoom room.polls).map (mkParticipant users)).mergeSort scoreDesc := rfl

lemma questions_def (users : List User) (room : Room) :
    (analyzeRoom users room).questions = room.polls.map questionStat := rfl

lemma bumpAcc_no_correct (a : Accum) (w : Nat) :
    bumpAcc a 0 w
      = { a with wrong := a.wrong + w, score := a.score - 2 * (w : Int) } := by
  simp only [bumpAcc, Accum.mk.injEq]
  and_intros <;> first | trivial | omega

lemma findRoom_cons (r : Room) (rest : List Room) (code : String) :
    findRoom (r :: rest) code
      = if r.roomCode = code then some r else findRoom rest code := by
  by_cases h : r.roomCode = code <;> simp [findRoom, List.find?_cons, h]

lemma findRoom_some_mem {store : List Room} {code : String} {r : Room}
    (h : findRoom store code = some r) : r ∈ store :=
  List.mem_of_find?_eq_some h

lemma findRoom_some_code {store : List Room} {code : String} {r : Room}
    (h : findRoom store code = some r) : r.roomCode = code := by
  simpa using List.find?_some h

lemma findRoom_of_mem_nodup (store : List Room) (code : String) (r : Room)
    (hU : (store.map Room.roomCode).Nodup) (hr : r ∈ store) (hc : r.roomCode = code) :
    findRoom store code = some r := by
  induction store with
  | nil => cases hr
  | cons x rest ih =>
      have hpair : (∀ y ∈ rest, ¬ y.roomCode = x.roomCode) ∧
          (rest.map Room.roomCode).Nodup := by
        simpa [List.nodup_cons] using hU
      rcases List.mem_cons.mp hr with rfl | hr'
      · rw [findRoom_cons, if_pos hc]
      · have hx : ¬ x.roomCode = code := fun hEq =>
          hpair.1 r hr' (hc.trans hEq.symm)
        rw [findRoom_cons, if_neg hx]
        exact ih hpair.2 hr'

lemma findRoom_endRoomUpdate (store : List Room) (code : String) :
    findRoom (endRoomUpdate store code) code
      = (findRoom store code).map (fun r => { r with status := "ended" }) := by
  induction store with
  | nil => rfl
  | cons r rest ih =>
      by_cases h : r.roomCode = code
      · simp [endRoomUpdate, findRoom_cons, h]
      · simp [endRoomUpdate, findRoom_cons, h, ih]

lemma endRoomUpdate_of_none (store : List Room) (code : String)
    (h : findRoom store code = none) : endRoomUpdate store code = store := by
  induction store with
  | nil => rfl
  | cons r rest ih =>
      rw [findRoom_cons] at h
      by_cases hx : r.roomCode = code
      · rw [if_pos hx] at h
        cases h
      · rw [if_neg hx] at h
        simp [endRoomUpdate, hx, ih h]

lemma endRoomUpdate_split (store : List Room) (code : String) (r : Room)
    (h : findRoom store code = some r) :
    ∃ pre post, store = pre ++ r :: post ∧
      endRoomUpdate store code = pre ++ { r with status := "ended" } :: post := by
  induction store with
  | nil => cases h
  | cons x rest ih =>
      rw [findRoom_cons] at h
      by_cases hx : x.roomCode = code
      · rw [if_pos hx] at h
        cases h
        refine ⟨[], rest, rfl, ?_⟩
        simp [endRoomUpdate, hx]
      · rw [if_neg hx] at h
        obtain ⟨pre, post, h1, h2⟩ := ih h
        refine ⟨x :: pre, post, by rw [h1]; rfl, ?_⟩
        simp [endRoomUpdate, hx, h2]

end PollRoom

namespace PollRoom

/-- C1: each entry of the poll analysis tally carries a correct count equal
to the number of that student's stored answers hitting the poll's correct
option, a wrong count equal to the number of their remaining answers, and a
score of 5 times correct minus 2 times wrong, every stored answer counted
once, duplicates included; the projected record reaches the output
participants. -/
theorem analysis_per_student_counts (users : List User) (room : Room) (a : Accum)
    (ha : a ∈ tallyRoom room.polls) :
    a.correct = roomCorrect room.polls a.userId ∧
    a.wrong = roomWrong room.polls a.userId ∧
    a.correct + a.wrong = roomTotal room.polls a.userId ∧
    a.score = 5 * (a.correct : Int) - 2 * (a.wrong : Int) ∧
    mkParticipant users a ∈ (analyzeRoom users room).participants := by
  have hk := mem_tallyRoom_eq room.polls a ha
  rw [lookupAcc_tallyRoom] at hk
  have hc : a.correct = roomCorrect room.polls a.userId := congrArg Accum.correct hk
  have hw : a.wrong = roomWrong room.polls a.userId := congrArg Accum.wrong hk
  have hs : a.score = 5 * (roomCorrect room.polls a.userId : Int)
      - 2 * (roomWrong room.polls a.userId : Int) := congrArg Accum.score hk
  refine ⟨hc, hw, ?_, ?_, ?_⟩
  · rw [hc, hw]
    exact roomCorrect_add_roomWrong room.polls a.userId
  · rw [hs, hc, hw]
  · rw [participants_def]
    exact ((List.mergeSort_perm _ scoreDesc).mem_iff).mpr
      (List.mem_map_of_mem (mkParticipant users) ha)

/-- C1 witness: the two-poll scenario of the specification, where student u1
ends with 2 correct, 0 wrong and score 10. -/
theorem analysis_per_student_counts_witness :
    (⟨"u1", 2, 0, 10, 0⟩ : Accum) ∈ tallyRoom exampleRoom.polls ∧
    ((⟨"u1", 2, 0, 10, 0⟩ : Accum).correct = roomCorrect exampleRoom.polls "u1" ∧
     (⟨"u1", 2, 0, 10, 0⟩ : Accum).wrong = roomWrong exampleRoom.polls "u1" ∧
     (⟨"u1", 2, 0, 10, 0⟩ : Accum).correct + (⟨"u1", 2, 0, 10, 0⟩ : Accum).wrong
        = roomTotal exampleRoom.polls "u1" ∧
     (⟨"u1", 2, 0, 10, 0⟩ : Accum).score
        = 5 * ((⟨"u1", 2, 0, 10, 0⟩ : Accum).correct : Int)
          - 2 * ((⟨"u1", 2, 0, 10, 0⟩ : Accum).wrong : Int) ∧
     mkParticipant [] (⟨"u1", 2, 0, 10, 0⟩ : Accum)
        ∈ (analyzeRoom [] exampleRoom).participants) :=
  ⟨by decide, analysis_per_student_counts [] exampleRoom ⟨"u1", 2, 0, 10, 0⟩ (by decide)⟩

/-- C3: the tally holds exactly one entry per distinct student appearing in
some stored answer, the output participants list is as long as the tally,
and a room without polls yields empty participants and empty questions. -/
theorem participants_exactly_answering_students (users : List User) (room : Room) :
    (uids (tallyRoom room.polls)).Nodup ∧
    (∀ uid, uid ∈ uids (tallyRoom room.polls) ↔
        ∃ p ∈ room.polls, ∃ a ∈ p.answers, a.userId = uid) ∧
    (analyzeRoom users room).participants.length = (tallyRoom room.polls).length ∧
    (room.polls = [] →
        (analyzeRoom users room).participants = [] ∧
        (analyzeRoom users room).questions = []) := by
  refine ⟨nodup_uids_tallyRoom room.polls, fun uid => mem_uids_tallyRoom room.polls uid, ?_, ?_⟩
  · rw [participants_def, (List.mergeSort_perm _ scoreDesc).length_eq, List.length_map]
  · intro h
    constructor
    · rw [participants_def, h]
      simp [tallyRoom]
    · rw [questions_def, h]
      rfl

/-- C3 witness: a stored room with no polls produces an empty report. -/
theorem participants_exactly_answering_students_witness :
    emptyRoom.polls = [] ∧
    ((analyzeRoom [] emptyRoom).participants = [] ∧
     (analyzeRoom [] emptyRoom).questions = []) :=
  ⟨rfl, (participants_exactly_answering_students [] emptyRoom).2.2.2 rfl⟩

/-- C4: the participants sequence of the analysis output is pairwise sorted
by score in descending order. -/
theorem participants_sorted_desc (users : List User) (room : Room) :
    (analyzeRoom users room).participants.Pairwise (fun a b => b.score ≤ a.score) := by
  rw [participants_def]
  have h := @List.sorted_mergeSort ParticipantOut scoreDesc scoreDesc_trans scoreDesc_total
      ((tallyRoom room.polls).map (mkParticipant users))
  exact h.imp (fun hab => by simpa [scoreDesc] using hab)

/-- C5: a poll whose correctOptionIndex is the sentinel -1 tallies every one
of its (index-valued) answers as wrong, subtracting 2 points each, and its
question-level stat reports 0 correct answers. -/
theorem sentinel_all_wrong (users : List User) (room : Room) (p : Poll) (uid : String)
    (hp : p ∈ room.polls) (hs : p.correctOptionIndex = -1)
    (hv : ∀ a ∈ p.answers, 0 ≤ a.answerIndex) :
    (∀ m, lookupAcc (tallyPoll m p) uid =
        { lookupAcc m uid with
            wrong := (lookupAcc m uid).wrong + pollTotal p uid,
            score := (lookupAcc m uid).score - 2 * (pollTotal p uid : Int) }) ∧
    questionStat p = { text := p.question, correctCount := 0 } ∧
    ({ text := p.question, correctCount := 0 } : QuestionStat)
        ∈ (analyzeRoom users room).questions := by
  have hall : ∀ a ∈ p.answers, (a.answerIndex == p.correctOptionIndex) = false := by
    intro a hap
    have h0 := hv a hap
    rw [hs]
    simp only [beq_eq_false_iff_ne, ne_eq]
    omega
  have hPC : pollCorrect p uid = 0 := by
    rw [pollCorrect]
    have : p.answers.filter (fun a => a.userId == uid && a.answerIndex == p.correctOptionIndex)
        = [] := by
      rw [List.filter_eq_nil_iff]
      intro a hap
      simp [hall a hap]
    simp [this]
  have hPW : pollWrong p uid = pollTotal p uid := by
    rw [pollWrong, pollTotal]
    congr 1
    apply List.filter_congr
    intro a hap
    simp [hall a hap]
  have hq : questionStat p = { text := p.question, correctCount := 0 } := by
    rw [questionStat]
    have : p.answers.filter (fun a => a.answerIndex == p.correctOptionIndex) = [] := by
      rw [List.filter_eq_nil_iff]
      intro a hap
      simp [hall a hap]
    simp [this]
  refine ⟨?_, hq, ?_⟩
  · intro m
    rw [lookupAcc_tallyPoll, hPC, hPW, bumpAcc_no_correct]
  · rw [questions_def, ← hq]
    exact List.mem_map_of_mem questionStat hp

/-- C5 witness: a one-poll room with an unset correct option, answered once
at option 0, whose stat reports 0 correct. -/
theorem sentinel_all_wrong_witness :
    sentinelPoll ∈ sentinelRoom.polls ∧
    sentinelPoll.correctOptionIndex = -1 ∧
    (∀ a ∈ sentinelPoll.answers, 0 ≤ a.answerIndex) ∧
    ((∀ m, lookupAcc (tallyPoll m sentinelPoll) "u1" =
        { lookupAcc m "u1" with
            wrong := (lookupAcc m "u1").wrong + pollTotal sentinelPoll "u1",
            score := (lookupAcc m "u1").score - 2 * (pollTotal sentinelPoll "u1" : Int) }) ∧
     questionStat sentinelPoll = { text := sentinelPoll.question, correctCount := 0 } ∧
     ({ text := sentinelPoll.question, correctCount := 0 } : QuestionStat)
        ∈ (analyzeRoom [] sentinelRoom).questions) :=
  ⟨by decide, by decide, by decide,
    sentinel_all_wrong [] sentinelRoom sentinelPoll "u1" (by decide) (by decide) (by decide)⟩

/-- C6: under the room-code uniqueness invariant, isRoomValid is true exactly
when a room with that code is stored and its status lowercased equals
active; in particular a nonexistent code yields false. -/
theorem isRoomValid_iff (store : List Room) (code : String)
    (hU : (store.map Room.roomCode).Nodup) :
    isRoomValid store code = true ↔
      ∃ r ∈ store, r.roomCode = code ∧ lowerStr r.status = "active" := by
  constructor
  · intro h
    rw [isRoomValid] at h
    cases hf : findRoom store code with
    | none => rw [hf] at h; cases h
    | some r =>
        rw [hf] at h
        exact ⟨r, findRoom_some_mem hf, findRoom_some_code hf, by simpa using h⟩
  · rintro ⟨r, hr, hc, hact⟩
    rw [isRoomValid, findRoom_of_mem_nodup store code r hU hr hc]
    simpa using hact

/-- C6 witness: a one-room store with an active room. -/
theorem isRoomValid_iff_witness :
    ([exampleRoom].map Room.roomCode).Nodup ∧
    (isRoomValid [exampleRoom] "ABC123" = true ↔
      ∃ r ∈ [exampleRoom], r.roomCode = "ABC123" ∧ lowerStr r.status = "active") :=
  ⟨by decide, isRoomValid_iff [exampleRoom] "ABC123" (by decide)⟩

/-- C7: getPollAnalysis fails with the Room-not-found error exactly when the
code resolves to no stored room, and an existing room yields the full report
rather than that failure. -/
theorem getPollAnalysis_not_found (store : List Room) (users : List User) (code : String) :
    (getPollAnalysis store users code = Except.error "Room not found" ↔
        findRoom store code = none) ∧
    (∀ r, findRoom store code = some r →
        getPollAnalysis store users code = Except.ok (analyzeRoom users r)) := by
  constructor
  · cases hf : findRoom store code with
    | none => simp [getPollAnalysis, hf]
    | some r => simp [getPollAnalysis, hf]
  · intro r hf
    simp [getPollAnalysis, hf]

/-- C7 witness: the stored example room is analysed, not rejected. -/
theorem getPollAnalysis_not_found_witness :
    getPollAnalysis [exampleRoom] [] "ABC123" = Except.ok (analyzeRoom [] exampleRoom) :=
  (getPollAnalysis_not_found [exampleRoom] [] "ABC123").2 exampleRoom (by decide)

/-- C8: when a room with the code exists, both the first and the second
endRoom call return true and the room reads back with status ended after
either call; when no room matches, endRoom returns false. -/
theorem endRoom_idempotent (store : List Room) (code : String) :
    ((findRoom store code).isSome = true →
        (endRoom store code).fst = true ∧
        (endRoom (endRoom store code).snd code).fst = true ∧
        (findRoom (endRoom store code).snd code).map Room.status = some "ended" ∧
        (findRoom (endRoom (endRoom store code).snd code).snd code).map Room.status
          = some "ended") ∧
    (findRoom store code = none → (endRoom store code).fst = false) := by
  constructor
  · intro h
    cases hf : findRoom store code with
    | none => rw [hf] at h; cases h
    | some r =>
        have h1 : findRoom (endRoomUpdate store code) code
            = some { r with status := "ended" } := by
          rw [findRoom_endRoomUpdate, hf]
          rfl
        have h2 : findRoom (endRoomUpdate (endRoomUpdate store code) code) code
            = some { { r with status := "ended" } with status := "ended" } := by
          rw [findRoom_endRoomUpdate, h1]
          rfl
        refine ⟨by simp [endRoom, hf], by simp [endRoom, h1], by simp [endRoom, h1],
          by simp [endRoom, h2]⟩
  · intro h
    simp [endRoom, h]

/-- C8 witness: ending the stored example room twice. -/
theorem endRoom_idempotent_witness :
    (findRoom [exampleRoom] "ABC123").isSome = true ∧
    ((endRoom [exampleRoom] "ABC123").fst = true ∧
     (endRoom (endRoom [exampleRoom] "ABC123").snd "ABC123").fst = true ∧
     (findRoom (endRoom [exampleRoom] "ABC123").snd "ABC123").map Room.status
        = some "ended" ∧
     (findRoom (endRoom (endRoom [exampleRoom] "ABC123").snd "ABC123").snd
          "ABC123").map Room.status = some "ended") :=
  ⟨by decide, (endRoom_idempotent [exampleRoom] "ABC123").1 (by decide)⟩

/-- C10: under the schema enum invariant restricting every stored status to
active or ended, the case-insensitive isRoomValid and the exact-match
canJoinRoom agree on every code. -/
theorem isRoomValid_eq_canJoinRoom (store : List Room) (code : String)
    (hinv : ∀ r ∈ store, r.status = "active" ∨ r.status = "ended") :
    isRoomValid store code = canJoinRoom store code := by
  rw [isRoomValid, canJoinRoom]
  cases hf : findRoom store code with
  | none => rfl
  | some r =>
      show (lowerStr r.status == "active") = (r.status == "active")
      rcases hinv r (findRoom_some_mem hf) with h | h <;> rw [h] <;> decide

/-- C10 witness: the two predicates agree on a store satisfying the enum
invariant. -/
theorem isRoomValid_eq_canJoinRoom_witness :
    (∀ r ∈ [exampleRoom], r.status = "active" ∨ r.status = "ended") ∧
    isRoomValid [exampleRoom] "ABC123" = canJoinRoom [exampleRoom] "ABC123" :=
  ⟨by decide, isRoomValid_eq_canJoinRoom [exampleRoom] "ABC123" (by decide)⟩

/-- C2 counterexample: ending a stored active room flips its status, yet the
room reads back with endedAt still absent, so no endedAt timestamp is
stamped on termination. -/
theorem endRoom_no_endedAt_cex :
    (endRoom [endRoomCexRoom] "R1").fst = true ∧
    findRoom (endRoom [endRoomCexRoom] "R1").snd "R1"
      = some { endRoomCexRoom with status := "ended" } ∧
    (findRoom (endRoom [endRoomCexRoom] "R1").snd "R1").map Room.endedAt
      = some none := by
  decide

/-- C2 amended: endRoom only flips the matched room's status to ended; it
stamps no endedAt (the schema stores none and the update writes none), every
other field of the room is unchanged, and no room, poll or answer is
deleted. -/
theorem endRoom_frame (store : List Room) (code : String) :
    (findRoom store code = none → endRoom store code = (false, store)) ∧
    (∀ r, findRoom store code = some r →
        (endRoom store code).fst = true ∧
        ({ r with status := "ended" } : Room).roomCode = r.roomCode ∧
        ({ r with status := "ended" } : Room).name = r.name ∧
        ({ r with status := "ended" } : Room).teacherId = r.teacherId ∧
        ({ r with status := "ended" } : Room).createdAt = r.createdAt ∧
        ({ r with status := "ended" } : Room).polls = r.polls ∧
        ({ r with status := "ended" } : Room).endedAt = r.endedAt ∧
        ∃ pre post, store = pre ++ r :: post ∧
          (endRoom store code).snd = pre ++ { r with status := "ended" } :: post) := by
  constructor
  · intro h
    rw [endRoom, endRoomUpdate_of_none store code h, h]
    rfl
  · intro r hf
    obtain ⟨pre, post, h1, h2⟩ := endRoomUpdate_split store code r hf
    exact ⟨by simp [endRoom, hf], rfl, rfl, rfl, rfl, rfl, rfl, pre, post, h1,
      by rw [endRoom]; exact h2⟩

/-- C2 witness: the frame theorem applied to the one-room counterexample
store. -/
theorem endRoom_frame_witness :
    findRoom [endRoomCexRoom] "R1" = some endRoomCexRoom ∧
    ((endRoom [endRoomCexRoom] "R1").fst = true ∧
     ({ endRoomCexRoom with status := "ended" } : Room).roomCode = endRoomCexRoom.roomCode ∧
     ({ endRoomCexRoom with status := "ended" } : Room).name = endRoomCexRoom.name ∧
     ({ endRoomCexRoom with status := "ended" } : Room).teacherId = endRoomCexRoom.teacherId ∧
     ({ endRoomCexRoom with status := "ended" } : Room).createdAt = endRoomCexRoom.createdAt ∧
     ({ endRoomCexRoom with status := "ended" } : Room).polls = endRoomCexRoom.polls ∧
     ({ endRoomCexRoom with status := "ended" } : Room).endedAt = endRoomCexRoom.endedAt ∧
     ∃ pre post, [endRoomCexRoom] = pre ++ endRoomCexRoom :: post ∧
        (endRoom [endRoomCexRoom] "R1").snd
          = pre ++ { endRoomCexRoom with status := "ended" } :: post) :=
  ⟨by decide, (endRoom_frame [endRoomCexRoom] "R1").2 endRoomCexRoom (by decide)⟩

/-- C9 counterexample: two outcomes of the pseudo-random draw give room
codes of lengths 6 and 1, so the generated code has no fixed length and is
never padded. -/
theorem createRoom_code_length_cex :
    (createRoom "Algebra" "teacher-1" 0 "k2j05a".data).roomCode.length = 6 ∧
    (createRoom "Algebra" "teacher-1" 0 ['i']).roomCode.length = 1 ∧
    (createRoom "Algebra" "teacher-1" 0 ['i']).roomCode = "I" := by
  decide

/-- C9 amended: for every draw outcome the persisted room has status active,
empty polls, createdAt equal to the creation instant, the given name and
teacher, no endedAt, and a roomCode made of uppercase base-36 characters of
length at most 6 (truncated, never padded). -/
theorem createRoom_spec (name teacherId : String) (now : Nat) (ds : List Char)
    (hds : ∀ c ∈ ds, c ∈ base36Digits) :
    (createRoom name teacherId now ds).status = "active" ∧
    (createRoom name teacherId now ds).polls = [] ∧
    (createRoom name teacherId now ds).createdAt = now ∧
    (createRoom name teacherId now ds).name = name ∧
    (createRoom name teacherId now ds).teacherId = teacherId ∧
    (createRoom name teacherId now ds).endedAt = none ∧
    (createRoom name teacherId now ds).roomCode.length ≤ 6 ∧
    (∀ c ∈ (createRoom name teacherId now ds).roomCode.data,
        c ∈ "0123456789ABCDEFGHIJKLMNOPQRSTUVWXYZ".data) := by
  have hdrop : (randFracChars ds).drop 2 = ds := by
    cases ds <;> rfl
  have hcode : (createRoom name teacherId now ds).roomCode
      = String.mk ((ds.take 6).map Char.toUpper) := by
    show genRoomCode ds = _
    rw [genRoomCode, hdrop]
  refine ⟨rfl, rfl, rfl, rfl, rfl, rfl, ?_, ?_⟩
  · rw [hcode]
    show ((ds.take 6).map Char.toUpper).length ≤ 6
    rw [List.length_map, List.length_take]
    exact min_le_left 6 ds.length
  · intro c hc
    rw [hcode] at hc
    have hc' : c ∈ (ds.take 6).map Char.toUpper := hc
    obtain ⟨d, hd, rfl⟩ := List.mem_map.mp hc'
    have hdds : d ∈ ds := List.mem_of_mem_take hd
    have hup : ∀ e ∈ base36Digits,
        e.toUpper ∈ "0123456789ABCDEFGHIJKLMNOPQRSTUVWXYZ".data := by decide
    exact hup d (hds d hdds)

/-- C9 witness: a six-digit draw yields a valid six-character code. -/
theorem createRoom_spec_witness :
    (∀ c ∈ "k2j05a".data, c ∈ base36Digits) ∧
    ((createRoom "Algebra" "teacher-1" 7 "k2j05a".data).status = "active" ∧
     (createRoom "Algebra" "teacher-1" 7 "k2j05a".data).polls = [] ∧
     (createRoom "Algebra" "teacher-1" 7 "k2j05a".data).createdAt = 7 ∧
     (createRoom "Algebra" "teacher-1" 7 "k2j05a".data).name = "Algebra" ∧
     (createRoom "Algebra" "teacher-1" 7 "k2j05a".data).teacherId = "teacher-1" ∧
     (createRoom "Algebra" "teacher-1" 7 "k2j05a".data).endedAt = none ∧
     (createRoom "Algebra" "teacher-1" 7 "k2j05a".data).roomCode.length ≤ 6 ∧
     (∀ c ∈ (createRoom "Algebra" "teacher-1" 7 "k2j05a".data).roomCode.data,
        c ∈ "0123456789ABCDEFGHIJKLMNOPQRSTUVWXYZ".data)) :=
  ⟨by decide, createRoom_spec "Algebra" "teacher-1" 7 "k2j05a".data (by decide)⟩

end PollRoom
